import Mathlib

/-!
Verification of the redis sniffer against its specification.

Shallow embedding of the Go sources:
- `tcpreader/tcpreader.go`: the timestamped byte-stream reader
  (`ReaderStream.read`, `ReadLine`, `ReadLineN`, `Reassembled`).
- `scan/scan.go`: the protocol decoder (`redisReadString0`,
  `redisReadString`, `redisReadArrayOrString`).
- `main.go` (correlating variant): the request/response correlator
  (`handleRequests` / `handleResponses` acting on `pendingRequests`).

Modelling conventions:
- a Go string is a `List Char` (`Str`); all protocol bytes are ASCII,
  so bytes and chars coincide.
- timestamps (`time.Time`) are unix microseconds as `Int`
  (the code only ever compares them through `UnixMicro()`).
- the byte stream delivered by the reassembly engine is a finite
  `List (Char × Int)` (byte together with the capture timestamp of the
  segment it came from); an empty list means the segment supply is
  exhausted and the channel closed, so `read` yields `EndOfStream`
  exactly where the Go `read` returns `io.EOF`.
- fallible Go code becomes `Except RErr`; `io.EOF` is
  `RErr.endOfStream`, a `log.Fatal` on a malformed input is
  `RErr.protocolViolation`, the correlator's `log.Fatalf("... no
  matching GET")` is `RErr.unmatchedResponse`, and a Go runtime
  `panic` (explicit `panic(...)` or an out-of-range slice index) is
  `RErr.panicked`.  On the error path Go returns the partial payload
  alongside the error; every caller in the sources discards that
  partial payload, so the model's errors carry no payload.
-/

/-- Error kinds of the program.  `endOfStream` is Go's `io.EOF`,
`protocolViolation` a `log.Fatal` on malformed protocol data,
`unmatchedResponse` the correlator's fatal "no matching GET", and
`panicked` a Go runtime panic. -/
inductive RErr where
  | endOfStream
  | protocolViolation
  | unmatchedResponse
  | panicked
deriving DecidableEq, Repr

/-- A Go string, modelled as its list of (ASCII) characters. -/
abbrev Str := List Char

/-- The byte stream one `ReaderStream` still has to deliver: each byte
paired with the capture timestamp (`Reassembly.Seen`, in unix
microseconds) of the segment it belongs to.  The list ends where the
producer called `ReassemblyComplete` (channel closed). -/
abbrev ByteStream := List (Char × Int)

/-- `defaultTime` of tcpreader.go (2000-01-01T00:00:00Z) as unix
microseconds; it is the initial value of `timestamp` in `ReadLineN`. -/
def defaultTime : Int := 946684800000000

/-- tcpreader.go `ReaderStream.read`: pop one byte with its timestamp,
or `io.EOF` once the segment supply is exhausted and closed. -/
def rsRead (s : ByteStream) : Except RErr (Char × Int × ByteStream) :=
  match s with
  | [] => .error .endOfStream
  | (c, t) :: rest => .ok (c, t, rest)

/-- Go `strings.TrimSuffix(s, "\r\n")`: drop a trailing CR LF pair when
present, otherwise leave the string unchanged. -/
def trimCRLF (cs : Str) : Str :=
  match cs.reverse with
  | '\n' :: '\r' :: rest => rest.reverse
  | _ => cs

/-- Loop body of tcpreader.go `ReadLine`: accumulate bytes until the
first LF (inclusive), then trim a trailing CR LF and fail on an empty
result (`log.Fatalf("empty line ...")`). -/
def readLineAux (acc : Str) : ByteStream → Except RErr (Str × Int × ByteStream)
  | [] => .error .endOfStream
  | (c, t) :: rest =>
    if c = '\n' then
      let line := trimCRLF (acc ++ [c])
      if line = [] then .error .protocolViolation
      else .ok (line, t, rest)
    else readLineAux (acc ++ [c]) rest

/-- tcpreader.go `ReadLine`: read up to and including the first LF,
`TrimSuffix "\r\n"`, return the line with the timestamp of the LF
byte. -/
def readLine (s : ByteStream) : Except RErr (Str × Int × ByteStream) :=
  readLineAux [] s

/-- Payload loop of tcpreader.go `ReadLineN`: read exactly `n` bytes,
tracking the timestamp of the byte read last (`ts` is the running
`timestamp` variable, initially `defaultTime`). -/
def readNAux : Nat → Int → ByteStream → Except RErr (Str × Int × ByteStream)
  | 0, ts, s => .ok ([], ts, s)
  | _ + 1, _, [] => .error .endOfStream
  | k + 1, _, (c, t) :: rest =>
    match readNAux k t rest with
    | .error e => .error e
    | .ok (cs, tsLast, s') => .ok (c :: cs, tsLast, s')

/-- tcpreader.go `ReadLineN`: `panic` on `n <= 0`, read exactly `n`
payload bytes, then demand a literal CR and a literal LF
(`log.Fatalf` otherwise; note the LF read's error is ignored, so an
exhausted stream there also reaches the `b != '\n'` fatal). -/
def readLineN (n : Int) (s : ByteStream) : Except RErr (Str × Int × ByteStream) :=
  if n ≤ 0 then .error .panicked
  else
    match readNAux n.toNat defaultTime s with
    | .error e => .error e
    | .ok (line, ts, s1) =>
      match s1 with
      | [] => .error .endOfStream
      | (b1, _) :: s2 =>
        if b1 = '\r' then
          match s2 with
          | [] => .error .protocolViolation
          | (b2, _) :: s3 =>
            if b2 = '\n' then
              if line = [] then .error .protocolViolation
              else .ok (line, ts, s3)
            else .error .protocolViolation
        else .error .protocolViolation

/-- Timestamp of the last byte of `seg`, seeded with `d` when `seg` is
empty (mirrors the running `timestamp` variable of `ReadLineN`). -/
def lastTsD (d : Int) (seg : ByteStream) : Int :=
  (seg.map Prod.snd).getLastD d

/-- Timestamp of the last byte of a non-empty payload, `defaultTime`
otherwise. -/
def lastTs (seg : ByteStream) : Int := lastTsD defaultTime seg

/-- Digit-run accumulator of Go `strconv.Atoi`: consume decimal digits,
fail on any non-digit. -/
def digitsValAux : Nat → Str → Option Nat
  | acc, [] => some acc
  | acc, c :: cs =>
    if c.isDigit then digitsValAux (10 * acc + (c.toNat - 48)) cs
    else none

/-- Value of a non-empty all-digits string, `none` otherwise. -/
def digitsVal (cs : Str) : Option Nat :=
  if cs = [] then none else digitsValAux 0 cs

/-- Go `strconv.Atoi`, successful outcomes: an optional sign followed
by at least one digit. -/
def atoiOpt (s : Str) : Option Int :=
  match s with
  | [] => none
  | c :: cs =>
    if c = '+' then (digitsVal cs).map Int.ofNat
    else if c = '-' then (digitsVal cs).map (fun v => -(Int.ofNat v))
    else (digitsVal s).map Int.ofNat

/-- Go `n, _ := strconv.Atoi(s)`: the parse error is discarded, leaving
`n = 0` whenever the string is not a valid decimal number. -/
def atoi (s : Str) : Int := (atoiOpt s).getD 0

/-- scan.go `redisReadString0`: decode one scalar whose header line has
already been read.  The branch order mirrors the source: `'+'` simple
string, the literal `"$-1"` null sentinel, `'$'` bulk string (length
via `atoi`, body via `ReadLineN`), `':'` integer, and otherwise the
line itself. -/
def redisReadString0 (line : Str) (timestamp : Int) (tp : ByteStream) :
    Except RErr (Str × Int × ByteStream) :=
  match line with
  | [] => .error .panicked
  | c :: rest =>
    if c = '+' then .ok (rest, timestamp, tp)
    else if line = "$-1".data then .ok ("not-found".data, timestamp, tp)
    else if c = '$' then
      let n : Int := atoi rest
      match readLineN n tp with
      | .error e => .error e
      | .ok (body, ts2, tp2) =>
        if (body.length : Int) < n then .error .protocolViolation
        else .ok (body, ts2, tp2)
    else if c = ':' then .ok (rest, timestamp, tp)
    else .ok (line, timestamp, tp)

/-- scan.go `redisReadString`: read the header line, then decode the
scalar it announces. -/
def redisReadString (tp : ByteStream) : Except RErr (Str × Int × ByteStream) :=
  match readLine tp with
  | .error e => .error e
  | .ok (line, ts, tp1) => redisReadString0 line ts tp1

/-- Loop of scan.go `redisReadArrayOrString`'s array branch: decode `k`
scalars in order, threading the timestamp of the scalar decoded
last. -/
def readScalars : Nat → Int → ByteStream → Except RErr (List Str × Int × ByteStream)
  | 0, ts, tp => .ok ([], ts, tp)
  | k + 1, _, tp =>
    match redisReadString tp with
    | .error e => .error e
    | .ok (v, ts1, tp1) =>
      match readScalars k ts1 tp1 with
      | .error e => .error e
      | .ok (vs, ts2, tp2) => .ok (v :: vs, ts2, tp2)

/-- scan.go `redisReadArrayOrString` (the spec's `DecodeUnit`): read one
line; on `'*'` parse the element count, `log.Fatalf` when it declares
fewer than one element, else decode that many scalars; on any other
leading character decode the single scalar announced by the line (a
returned `io.EOF` there hits `log.Fatal("redisReadArray", err)`). -/
def redisReadArrayOrString (tp : ByteStream) : Except RErr (List Str × Int × ByteStream) :=
  match readLine tp with
  | .error e => .error e
  | .ok (line, ts, tp1) =>
    match line with
    | [] => .error .panicked
    | c :: rest =>
      if c = '*' then
        let n : Int := atoi rest
        if n < 1 then .error .protocolViolation
        else readScalars n.toNat ts tp1
      else
        match redisReadString0 line ts tp1 with
        | .error .endOfStream => .error .protocolViolation
        | .error e => .error e
        | .ok (v, ts1, tp2) => .ok ([v], ts1, tp2)

/-- One reassembled chunk handed to the stream: payload bytes plus the
capture timestamp `Seen` (tcpassembly.Reassembly, as cloned by
`Reassembled`). -/
structure Reassembly where
  bytes : Str
  seen : Int
deriving DecidableEq, Repr

/-- Capacity of the `reassembled` channel created by
`NewReaderStream` (`make(chan []tcpassembly.Reassembly, 1000)`). -/
def chanCapacity : Nat := 1000

/-- tcpreader.go `ReaderStream.Reassembled`: clone the batch and send
it on the buffered channel without ever blocking (`select` with
`default`); when the channel already holds `chanCapacity` batches the
`default` branch panics ("blocked on sending to channel").  The state
is the list of batches currently queued in the channel. -/
def reassembledStep (queued : List (List Reassembly)) (batch : List Reassembly) :
    Except RErr (List (List Reassembly)) :=
  if queued.length < chanCapacity then .ok (queued ++ [batch])
  else .error .panicked

/-- main.go `redisRequest`: what the request handler appends to
`pendingRequests[flowKey]` (`requestTime` in unix microseconds, as
later read back through `UnixMicro()`). -/
structure redisRequest where
  reqType : Str
  key : Str
  requestTime : Int
deriving DecidableEq, Repr

/-- main.go's emitted correlation line, as a record: the printf
`"%s: %s %s => %s latency: %d"` with
`latency = s.lastTimestamp.UnixMicro() - req.requestTime.UnixMicro()`. -/
structure CorrelationRecord where
  flowKey : Str
  reqType : Str
  key : Str
  value : Str
  latencyMicros : Int
deriving DecidableEq, Repr

/-- Record emission of main.go `handleResponses` on a successful match:
latency is the response timestamp minus the request timestamp, both in
unix microseconds. -/
def emitRecord (flowKey : Str) (req : redisRequest) (respValue : Str)
    (respTime : Int) : CorrelationRecord :=
  { flowKey := flowKey
    reqType := req.reqType
    key := req.key
    value := respValue
    latencyMicros := respTime - req.requestTime }

/-- Retry loop of main.go `handleResponses`: up to 50 attempts; each
attempt reads `pendingRequests[s.flowKey]` (`obs i` is the map entry
observed on attempt `i`: `none` when the key is absent, `some l` when
present with list `l`).  A present entry is indexed with `reqList[0]`
immediately, so a present-but-empty entry is a runtime panic; an
absent entry sleeps 50ms and retries; after 50 failed attempts
`log.Fatalf("got %s response ... with no matching GET")` raises the
unmatched-response error. -/
def popRetry : Nat → (Nat → Option (List redisRequest)) → Except RErr redisRequest
  | 0, _ => .error .unmatchedResponse
  | k + 1, obs =>
    match obs 0 with
    | some [] => .error .panicked
    | some (r :: _) => .ok r
    | none => popRetry k (fun i => obs (i + 1))

/-- Per-unit dispatch of main.go `handleResponses`: a decoded unit whose
leading scalar is `"pmessage"` is a key-event notification and is
dropped without touching the pending queue; otherwise more than one
scalar is `log.Fatalf("expected 1 value response, ...")`; a single
scalar proceeds to the correlating pop (`popRetry` with the 50-attempt
budget). -/
def responseStep (lines : List Str) (obs : Nat → Option (List redisRequest)) :
    Except RErr (Option redisRequest) :=
  match lines with
  | [] => .error .panicked
  | l0 :: rest =>
    if l0 = "pmessage".data then .ok none
    else if rest.length > 0 then .error .protocolViolation
    else (popRetry 50 obs).map some

/-- One atomic access to a flow's pending-request queue, in the order
the two direction handlers happened to interleave: `req r` is the
request handler's `pendingRequests[k] = append(list, r)`, `resp` is
the response handler's pop of `reqList[0]` with
`pendingRequests[k] = reqList[1:]`. -/
inductive FlowStep where
  | req (r : redisRequest)
  | resp
deriving DecidableEq, Repr

/-- Queue state threaded through an interleaving: the pending queue, the
requests popped so far in pop order, and whether a pop ever found the
queue empty. -/
def stepQ (st : List redisRequest × List redisRequest × Bool) (s : FlowStep) :
    List redisRequest × List redisRequest × Bool :=
  match s, st with
  | .req r, (q, out, bad) => (q ++ [r], out, bad)
  | .resp, (q, out, bad) =>
    match q with
    | [] => (q, out, true)
    | r :: q' => (q', out ++ [r], bad)

/-- Run a whole interleaving of the two handlers' queue accesses from
the empty queue. -/
def runFlow (tr : List FlowStep) : List redisRequest × List redisRequest × Bool :=
  tr.foldl stepQ ([], [], false)

/-- Requests issued in a trace, in issue order. -/
def reqsOf (tr : List FlowStep) : List redisRequest :=
  tr.filterMap (fun s => match s with | .req r => some r | .resp => none)

/-- Number of response pops in a trace. -/
def respCount (tr : List FlowStep) : Nat :=
  tr.countP (fun s => match s with | .resp => true | _ => false)

/-! Reader-layer lemmas. -/

theorem trimCRLF_append_crlf (cs : Str) : trimCRLF (cs ++ ['\r', '\n']) = cs := by
  simp [trimCRLF, List.reverse_append]

theorem trimCRLF_no_cr (cs : Str) (h : cs.getLast? ≠ some '\r') :
    trimCRLF (cs ++ ['\n']) = cs ++ ['\n'] := by
  unfold trimCRLF
  split
  · rename_i rest heq
    exfalso
    apply h
    have h2 : '\n' :: cs.reverse = '\n' :: '\r' :: rest := by
      rw [← heq]; simp [List.reverse_append]
    have h3 : cs.reverse = '\r' :: rest := by injection h2
    rw [← List.head?_reverse, h3]; rfl
  · rfl

theorem readLineAux_no_lf (seg : ByteStream) (h : ∀ p ∈ seg, p.1 ≠ '\n')
    (acc : Str) : readLineAux acc seg = .error .endOfStream := by
  induction seg generalizing acc with
  | nil => rfl
  | cons p ps ih =>
    obtain ⟨c, tc⟩ := p
    have hc : c ≠ '\n' := h (c, tc) (List.mem_cons_self _ _)
    simp only [readLineAux, if_neg hc]
    exact ih (fun q hq => h q (List.mem_cons_of_mem _ hq)) _

theorem readLineAux_eq (seg : ByteStream) (h : ∀ p ∈ seg, p.1 ≠ '\n')
    (t : Int) (rest : ByteStream) (acc : Str) :
    readLineAux acc (seg ++ ('\n', t) :: rest) =
      (if trimCRLF (acc ++ seg.map Prod.fst ++ ['\n']) = []
       then .error .protocolViolation
       else .ok (trimCRLF (acc ++ seg.map Prod.fst ++ ['\n']), t, rest)) := by
  induction seg generalizing acc with
  | nil => simp [readLineAux]
  | cons p ps ih =>
    obtain ⟨c, tc⟩ := p
    have hc : c ≠ '\n' := h (c, tc) (List.mem_cons_self _ _)
    simp only [List.cons_append, readLineAux, if_neg hc, List.append_eq]
    rw [ih (fun q hq => h q (List.mem_cons_of_mem _ hq))]
    simp [List.append_assoc]

theorem readLine_crlf (seg : ByteStream) (h : ∀ p ∈ seg, p.1 ≠ '\n')
    (hne : seg ≠ []) (t1 t2 : Int) (rest : ByteStream) :
    readLine (seg ++ ('\r', t1) :: ('\n', t2) :: rest) =
      .ok (seg.map Prod.fst, t2, rest) := by
  have hshape : seg ++ ('\r', t1) :: ('\n', t2) :: rest =
      (seg ++ [('\r', t1)]) ++ ('\n', t2) :: rest := by simp
  have hno : ∀ p ∈ seg ++ [('\r', t1)], p.1 ≠ '\n' := by
    intro p hp
    rcases List.mem_append.mp hp with hp | hp
    · exact h p hp
    · rw [List.mem_singleton] at hp
      subst hp
      show ('\r' : Char) ≠ '\n'
      decide
  rw [readLine, hshape, readLineAux_eq _ hno]
  have htrim : trimCRLF ([] ++ (seg ++ [('\r', t1)]).map Prod.fst ++ ['\n']) =
      seg.map Prod.fst := by
    simp only [List.nil_append, List.map_append, List.map_cons, List.map_nil,
      List.append_assoc, List.singleton_append]
    exact trimCRLF_append_crlf _
  rw [htrim, if_neg (by simp [hne])]

theorem readLine_bare_lf (seg : ByteStream) (h : ∀ p ∈ seg, p.1 ≠ '\n')
    (hlast : (seg.map Prod.fst).getLast? ≠ some '\r') (t : Int) (rest : ByteStream) :
    readLine (seg ++ ('\n', t) :: rest) =
      .ok (seg.map Prod.fst ++ ['\n'], t, rest) := by
  rw [readLine, readLineAux_eq _ h]
  have htrim : trimCRLF ([] ++ seg.map Prod.fst ++ ['\n']) =
      seg.map Prod.fst ++ ['\n'] := by
    simp only [List.nil_append]
    exact trimCRLF_no_cr _ hlast
  rw [htrim, if_neg (by simp)]

theorem readLine_empty_line (t1 t2 : Int) (rest : ByteStream) :
    readLine (('\r', t1) :: ('\n', t2) :: rest) = .error .protocolViolation := by
  simp [readLine, readLineAux, trimCRLF]

theorem readLine_exhausted (seg : ByteStream) (h : ∀ p ∈ seg, p.1 ≠ '\n') :
    readLine seg = .error .endOfStream :=
  readLineAux_no_lf seg h []

theorem readNAux_eq (seg : ByteStream) :
    ∀ (d : Int) (rest : ByteStream),
      readNAux seg.length d (seg ++ rest) = .ok (seg.map Prod.fst, lastTsD d seg, rest) := by
  induction seg with
  | nil => intro d rest; simp [readNAux, lastTsD]
  | cons p ps ih =>
    obtain ⟨c, t⟩ := p
    intro d rest
    simp only [List.length_cons, List.cons_append, readNAux, List.append_eq]
    rw [ih t rest]
    have hts : lastTsD d ((c, t) :: ps) = lastTsD t ps := by
      simp only [lastTsD, List.map_cons, List.getLastD_cons]
    rw [List.map_cons, hts]

theorem lastTs_eq_getLast (seg : ByteStream) (h : seg ≠ []) :
    lastTs seg = (seg.getLast h).2 := by
  rw [lastTs, lastTsD, List.getLastD_eq_getLast?, List.getLast?_eq_getLast _ (by simp [h]),
    Option.getD_some, List.getLast_map]

theorem length_cast_pos (seg : ByteStream) (h : seg ≠ []) :
    ¬ ((seg.length : Int) ≤ 0) := by
  have : 0 < seg.length := List.length_pos.mpr h
  omega

theorem readLineN_ok (seg : ByteStream) (hne : seg ≠ []) (t1 t2 : Int)
    (rest : ByteStream) :
    readLineN (seg.length : Int) (seg ++ ('\r', t1) :: ('\n', t2) :: rest) =
      .ok (seg.map Prod.fst, lastTs seg, rest) := by
  rw [readLineN, if_neg (length_cast_pos seg hne), Int.toNat_natCast, readNAux_eq]
  simp [hne, lastTs]

theorem readLineN_badCR (seg : ByteStream) (hne : seg ≠ []) (b : Char)
    (hb : b ≠ '\r') (t1 : Int) (rest : ByteStream) :
    readLineN (seg.length : Int) (seg ++ (b, t1) :: rest) =
      .error .protocolViolation := by
  rw [readLineN, if_neg (length_cast_pos seg hne), Int.toNat_natCast, readNAux_eq]
  simp [hb]

theorem readLineN_badLF (seg : ByteStream) (hne : seg ≠ []) (b : Char)
    (hb : b ≠ '\n') (t1 t2 : Int) (rest : ByteStream) :
    readLineN (seg.length : Int) (seg ++ ('\r', t1) :: (b, t2) :: rest) =
      .error .protocolViolation := by
  rw [readLineN, if_neg (length_cast_pos seg hne), Int.toNat_natCast, readNAux_eq]
  simp [hb]

/-! Claim C2 — `ReadExact(n)` / `ReadLineN`. -/

/-- C2: for every n > 0 (a non-empty payload `seg` of length n) and every
stream whose next bytes are the n payload bytes followed by CR LF,
`ReadLineN` returns exactly those payload bytes together with the
timestamp of the last payload byte (`lastTs seg`, which is the final
conjunct's `(seg.getLast _).2`); and whenever either of the two bytes
following the payload is not literally CR then LF, it fails with the
protocol-violation fatal. -/
theorem c2_read_exact :
    (∀ (seg : ByteStream) (t1 t2 : Int) (rest : ByteStream), seg ≠ [] →
        readLineN (seg.length : Int) (seg ++ ('\r', t1) :: ('\n', t2) :: rest) =
          .ok (seg.map Prod.fst, lastTs seg, rest)) ∧
    (∀ (seg : ByteStream) (b : Char) (t1 : Int) (rest : ByteStream),
        seg ≠ [] → b ≠ '\r' →
        readLineN (seg.length : Int) (seg ++ (b, t1) :: rest) =
          .error .protocolViolation) ∧
    (∀ (seg : ByteStream) (b : Char) (t1 t2 : Int) (rest : ByteStream),
        seg ≠ [] → b ≠ '\n' →
        readLineN (seg.length : Int) (seg ++ ('\r', t1) :: (b, t2) :: rest) =
          .error .protocolViolation) ∧
    (∀ (seg : ByteStream) (h : seg ≠ []), lastTs seg = (seg.getLast h).2) :=
  ⟨fun seg t1 t2 rest hne => readLineN_ok seg hne t1 t2 rest,
   fun seg b t1 rest hne hb => readLineN_badCR seg hne b hb t1 rest,
   fun seg b t1 t2 rest hne hb => readLineN_badLF seg hne b hb t1 t2 rest,
   fun seg h => lastTs_eq_getLast seg h⟩

/-- Witness for C2 at concrete inputs: payload "ab" with CR LF succeeds
carrying the second payload byte's timestamp; a non-CR or non-LF
terminator byte is a protocol violation. -/
theorem c2_read_exact_witness :
    readLineN 2 [('a', 3), ('b', 4), ('\r', 5), ('\n', 6), ('x', 7)] =
      .ok (['a', 'b'], 4, [('x', 7)]) ∧
    readLineN 1 [('a', 3), ('X', 5), ('y', 6)] = .error .protocolViolation ∧
    readLineN 1 [('a', 3), ('\r', 5), ('Y', 6)] = .error .protocolViolation := by
  refine ⟨?_, ?_, ?_⟩
  · simpa using c2_read_exact.1 [('a', 3), ('b', 4)] 5 6 [('x', 7)] (by decide)
  · simpa using c2_read_exact.2.1 [('a', 3)] 'X' 5 [('y', 6)] (by decide) (by decide)
  · simpa using c2_read_exact.2.2.1 [('a', 3)] 'Y' 5 6 [] (by decide) (by decide)

/-! Claim C3 — `ReadLine`. -/

/-- C3 counterexample: on the stream "a\n" (a line terminated by a bare
LF with no CR), `ReadLine` returns the content with the LF still
attached, not the stripped content "a" the claim describes. -/
theorem c3_counterexample :
    readLine [('a', 0), ('\n', 1)] = .ok (['a', '\n'], 1, []) ∧
    (['a', '\n'] : Str) ≠ ['a'] :=
  ⟨rfl, by decide⟩

/-- C3 (amended): `ReadLine` consumes bytes up to and including the
first line feed and returns the consumed bytes with the two-byte
suffix CR LF removed when present — a line terminated by a bare LF is
returned with its LF still attached — together with the timestamp of
the LF byte; it fails with `EndOfStream` once the segment supply is
exhausted and closed, and with `ProtocolViolation` when the line after
stripping is empty (the line was exactly CR LF). -/
theorem c3_read_line_amended :
    (∀ (seg : ByteStream) (t1 t2 : Int) (rest : ByteStream),
        (∀ p ∈ seg, p.1 ≠ '\n') → seg ≠ [] →
        readLine (seg ++ ('\r', t1) :: ('\n', t2) :: rest) =
          .ok (seg.map Prod.fst, t2, rest)) ∧
    (∀ (seg : ByteStream) (t : Int) (rest : ByteStream),
        (∀ p ∈ seg, p.1 ≠ '\n') → (seg.map Prod.fst).getLast? ≠ some '\r' →
        readLine (seg ++ ('\n', t) :: rest) =
          .ok (seg.map Prod.fst ++ ['\n'], t, rest)) ∧
    (∀ (t1 t2 : Int) (rest : ByteStream),
        readLine (('\r', t1) :: ('\n', t2) :: rest) = .error .protocolViolation) ∧
    (∀ (seg : ByteStream), (∀ p ∈ seg, p.1 ≠ '\n') →
        readLine seg = .error .endOfStream) :=
  ⟨fun seg t1 t2 rest h hne => readLine_crlf seg h hne t1 t2 rest,
   fun seg t rest h hl => readLine_bare_lf seg h hl t rest,
   readLine_empty_line,
   fun seg h => readLine_exhausted seg h⟩

/-- Witness for C3 (amended) at concrete inputs: a CR-LF line, a bare-LF
line, the empty CR-LF line, and an exhausted stream. -/
theorem c3_read_line_amended_witness :
    readLine [('O', 1), ('K', 2), ('\r', 3), ('\n', 4), ('z', 9)] =
      .ok (['O', 'K'], 4, [('z', 9)]) ∧
    readLine [('b', 0), ('\n', 1)] = .ok (['b', '\n'], 1, []) ∧
    readLine [('\r', 0), ('\n', 1), ('w', 2)] = .error .protocolViolation ∧
    readLine [('q', 5)] = .error .endOfStream := by
  refine ⟨?_, ?_, ?_, ?_⟩
  · simpa using c3_read_line_amended.1 [('O', 1), ('K', 2)] 3 4 [('z', 9)]
      (by decide) (by decide)
  · simpa using c3_read_line_amended.2.1 [('b', 0)] 1 [] (by decide) (by decide)
  · exact c3_read_line_amended.2.2.1 0 1 [('w', 2)]
  · simpa using c3_read_line_amended.2.2.2 [('q', 5)] (by decide)

/-! Decoder-layer lemmas. -/

theorem digitsValAux_digits (cs : Str) :
    ∀ (acc v : Nat), digitsValAux acc cs = some v → ∀ c ∈ cs, c.isDigit := by
  induction cs with
  | nil => intro acc v _ c hc; cases hc
  | cons a as ih =>
    intro acc v h c hc
    by_cases ha : a.isDigit
    · simp only [digitsValAux, if_pos ha] at h
      rcases List.mem_cons.mp hc with rfl | hc
      · exact ha
      · exact ih _ _ h c hc
    · simp [digitsValAux, ha] at h

theorem digitsVal_digits (cs : Str) (v : Nat) (h : digitsVal cs = some v) :
    ∀ c ∈ cs, c.isDigit := by
  unfold digitsVal at h
  split at h
  · exact absurd h (by simp)
  · exact digitsValAux_digits cs 0 v h

theorem atoiOpt_no_lf (s : Str) (k : Int) (h : atoiOpt s = some k) : '\n' ∉ s := by
  intro hmem
  cases s with
  | nil => simp [atoiOpt] at h
  | cons c cs =>
    simp only [atoiOpt] at h
    by_cases h1 : c = '+'
    · rw [if_pos h1] at h
      obtain ⟨v, hv, _⟩ := Option.map_eq_some'.mp h
      rcases List.mem_cons.mp hmem with heq | hmem2
      · rw [h1] at heq; exact absurd heq (by decide)
      · exact absurd (digitsVal_digits cs v hv _ hmem2) (by decide)
    · by_cases h2 : c = '-'
      · rw [if_neg h1, if_pos h2] at h
        obtain ⟨v, hv, _⟩ := Option.map_eq_some'.mp h
        rcases List.mem_cons.mp hmem with heq | hmem2
        · rw [h2] at heq; exact absurd heq (by decide)
        · exact absurd (digitsVal_digits cs v hv _ hmem2) (by decide)
      · rw [if_neg h1, if_neg h2] at h
        obtain ⟨v, hv, _⟩ := Option.map_eq_some'.mp h
        exact absurd (digitsVal_digits (c :: cs) v hv _ hmem) (by decide)

theorem atoi_of_some (s : Str) (k : Int) (h : atoiOpt s = some k) : atoi s = k := by
  rw [atoi, h]; rfl

theorem bulk_num_ne (numStr : Str) (len : Nat)
    (hnum : atoiOpt numStr = some (len : Int)) (hlen : 1 ≤ len) :
    numStr ≠ "-1".data := by
  intro h
  rw [h] at hnum
  have hval : atoiOpt "-1".data = some (-1) := by decide
  rw [hval] at hnum
  have := Option.some.inj hnum
  omega

/-- Scalar values of the protocol grammar, as the decoder understands
them: a simple string, an integer (returned as its decimal text), the
null bulk string, or a bulk string with its declared-length field and
body. -/
inductive RScalar where
  | simple (text : Str)
  | intval (text : Str)
  | nullBulk
  | bulk (numStr : Str) (body : Str)
deriving DecidableEq, Repr

/-- Decoded value of a scalar: simple strings and integers lose their
tag character, the null sentinel becomes "not-found", a bulk string is
its body. -/
def RScalar.value : RScalar → Str
  | .simple t => t
  | .intval t => t
  | .nullBulk => "not-found".data
  | .bulk _ body => body

/-- A stream segment that is a wire encoding of one scalar that the
decoder can decode, timestamps arbitrary: `'+' text CRLF`,
`':' text CRLF` (text free of LF), the literal `"$-1" CRLF`, or
`'$' n CRLF body CRLF` with `n` parsing (via `strconv.Atoi`) to the
body's length.  The bulk case additionally demands a length of at
least 1: the grammar also admits the empty bulk string `"$0" CRLF
CRLF`, but on it the program aborts (`ReadLineN` panics on n <= 0)
instead of decoding — see the C1 counterexample — so a declared
length of 0 is deliberately outside this relation. -/
inductive EncodesScalar : RScalar → ByteStream → Prop where
  | simple (text : Str) (seg : ByteStream) (t0 tCR tLF : Int)
      (hn : '\n' ∉ text) (hm : seg.map Prod.fst = text) :
      EncodesScalar (.simple text) ((('+', t0) :: seg) ++ [('\r', tCR), ('\n', tLF)])
  | intval (text : Str) (seg : ByteStream) (t0 tCR tLF : Int)
      (hn : '\n' ∉ text) (hm : seg.map Prod.fst = text) :
      EncodesScalar (.intval text) (((':', t0) :: seg) ++ [('\r', tCR), ('\n', tLF)])
  | nullBulk (t0 t1 t2 tCR tLF : Int) :
      EncodesScalar .nullBulk [('$', t0), ('-', t1), ('1', t2), ('\r', tCR), ('\n', tLF)]
  | bulk (numStr body : Str) (segN segB : ByteStream)
      (t0 tCR1 tLF1 tCR2 tLF2 : Int)
      (hnum : atoiOpt numStr = some (body.length : Int)) (hlen : 1 ≤ body.length)
      (hm1 : segN.map Prod.fst = numStr) (hm2 : segB.map Prod.fst = body) :
      EncodesScalar (.bulk numStr body)
        ((('$', t0) :: segN) ++ [('\r', tCR1), ('\n', tLF1)] ++ segB ++ [('\r', tCR2), ('\n', tLF2)])

/-- A stream that is the concatenation, in order, of valid encodings of
a list of scalars. -/
inductive EncodesScalars : List RScalar → ByteStream → Prop where
  | nil : EncodesScalars [] []
  | cons (sc : RScalar) (scs : List RScalar) (enc encs : ByteStream) :
      EncodesScalar sc enc → EncodesScalars scs encs →
      EncodesScalars (sc :: scs) (enc ++ encs)

theorem no_lf_of_map (seg : ByteStream) (text : Str)
    (hm : seg.map Prod.fst = text) (hn : '\n' ∉ text) :
    ∀ p ∈ seg, p.1 ≠ '\n' := by
  intro p hp hEq
  apply hn
  rw [← hm]
  exact hEq ▸ List.mem_map_of_mem Prod.fst hp

theorem redisReadString0_simple (text : Str) (t : Int) (tp : ByteStream) :
    redisReadString0 ('+' :: text) t tp = .ok (text, t, tp) := by
  simp [redisReadString0]

theorem redisReadString0_null (t : Int) (tp : ByteStream) :
    redisReadString0 "$-1".data t tp = .ok ("not-found".data, t, tp) := rfl

theorem redisReadString0_int (text : Str) (t : Int) (tp : ByteStream) :
    redisReadString0 (':' :: text) t tp = .ok (text, t, tp) := by
  have hne : (':' :: text) ≠ "$-1".data := by
    intro h; injection h with h1 _; exact absurd h1 (by decide)
  simp [redisReadString0, hne]

theorem redisReadString0_bulk (numStr body : Str)
    (hnum : atoiOpt numStr = some (body.length : Int)) (hlen : 1 ≤ body.length)
    (t : Int) (segB : ByteStream) (hm : segB.map Prod.fst = body)
    (tCR tLF : Int) (rest : ByteStream) :
    redisReadString0 ('$' :: numStr) t (segB ++ ('\r', tCR) :: ('\n', tLF) :: rest) =
      .ok (body, lastTs segB, rest) := by
  have hne : ('$' :: numStr) ≠ "$-1".data := by
    intro h
    injection h with _ h2
    exact bulk_num_ne numStr body.length hnum hlen h2
  have hlenB : segB.length = body.length := by rw [← hm, List.length_map]
  have hBne : segB ≠ [] := by
    intro h
    rw [h] at hlenB
    simp at hlenB
    omega
  have hatoi : atoi numStr = (body.length : Int) := atoi_of_some _ _ hnum
  have hrl : readLineN ((body.length : Int)) (segB ++ ('\r', tCR) :: ('\n', tLF) :: rest) =
      .ok (body, lastTs segB, rest) := by
    rw [← hlenB, readLineN_ok segB hBne, hm]
  simp [redisReadString0, hne, hrl, hatoi]

theorem redisReadString_eq_of_line (tp : ByteStream) (line : Str) (ts : Int)
    (tp1 : ByteStream) (h : readLine tp = .ok (line, ts, tp1)) :
    redisReadString tp = redisReadString0 line ts tp1 := by
  unfold redisReadString
  rw [h]

theorem redisReadArrayOrString_star (tp : ByteStream) (lrest : Str) (ts : Int)
    (tp1 : ByteStream) (h : readLine tp = .ok ('*' :: lrest, ts, tp1)) :
    redisReadArrayOrString tp =
      (if atoi lrest < 1 then .error .protocolViolation
       else readScalars (atoi lrest).toNat ts tp1) := by
  unfold redisReadArrayOrString
  rw [h]
  simp

theorem redisReadArrayOrString_nonstar (tp : ByteStream) (c : Char) (lrest : Str)
    (ts : Int) (tp1 : ByteStream) (hc : c ≠ '*')
    (h : readLine tp = .ok (c :: lrest, ts, tp1)) :
    redisReadArrayOrString tp =
      (match redisReadString0 (c :: lrest) ts tp1 with
       | .error .endOfStream => .error .protocolViolation
       | .error e => .error e
       | .ok (v, ts1, tp2) => .ok ([v], ts1, tp2)) := by
  unfold redisReadArrayOrString
  rw [h]
  simp [hc]

theorem encodes_line (sc : RScalar) (enc : ByteStream) (h : EncodesScalar sc enc)
    (rest : ByteStream) :
    ∃ c lrest ts tp1 ts2, readLine (enc ++ rest) = .ok (c :: lrest, ts, tp1) ∧
      c ≠ '*' ∧ redisReadString0 (c :: lrest) ts tp1 = .ok (sc.value, ts2, rest) := by
  cases h with
  | simple text seg t0 tCR tLF hn hm =>
    refine ⟨'+', text, tLF, rest, tLF, ?_, by decide, ?_⟩
    · have hre : ((('+', t0) :: seg) ++ [('\r', tCR), ('\n', tLF)]) ++ rest =
          (('+', t0) :: seg) ++ ('\r', tCR) :: ('\n', tLF) :: rest := by simp
      have hno : ∀ p ∈ ('+', t0) :: seg, p.1 ≠ '\n' :=
        no_lf_of_map _ ('+' :: text) (by simp [hm])
          (by
            intro hmem
            rcases List.mem_cons.mp hmem with heq | hmem2
            · exact absurd heq (by decide)
            · exact hn hmem2)
      rw [hre, readLine_crlf _ hno (by simp) tCR tLF rest]
      simp [hm]
    · exact redisReadString0_simple text tLF rest
  | intval text seg t0 tCR tLF hn hm =>
    refine ⟨':', text, tLF, rest, tLF, ?_, by decide, ?_⟩
    · have hre : (((':', t0) :: seg) ++ [('\r', tCR), ('\n', tLF)]) ++ rest =
          ((':', t0) :: seg) ++ ('\r', tCR) :: ('\n', tLF) :: rest := by simp
      have hno : ∀ p ∈ (':', t0) :: seg, p.1 ≠ '\n' :=
        no_lf_of_map _ (':' :: text) (by simp [hm])
          (by
            intro hmem
            rcases List.mem_cons.mp hmem with heq | hmem2
            · exact absurd heq (by decide)
            · exact hn hmem2)
      rw [hre, readLine_crlf _ hno (by simp) tCR tLF rest]
      simp [hm]
    · exact redisReadString0_int text tLF rest
  | nullBulk t0 t1 t2 tCR tLF =>
    refine ⟨'$', "-1".data, tLF, rest, tLF, ?_, by decide, ?_⟩
    · have hno : ∀ p ∈ [('$', t0), ('-', t1), ('1', t2)], p.1 ≠ '\n' :=
        no_lf_of_map _ ['$', '-', '1'] rfl (by decide)
      have hre : ([('$', t0), ('-', t1), ('1', t2), ('\r', tCR), ('\n', tLF)] : ByteStream) ++ rest =
          [('$', t0), ('-', t1), ('1', t2)] ++ ('\r', tCR) :: ('\n', tLF) :: rest := by simp
      rw [hre, readLine_crlf _ hno (by simp) tCR tLF rest]
      rfl
    · exact redisReadString0_null tLF rest
  | bulk numStr body segN segB t0 tCR1 tLF1 tCR2 tLF2 hnum hlen hm1 hm2 =>
    refine ⟨'$', numStr, tLF1, segB ++ ('\r', tCR2) :: ('\n', tLF2) :: rest, lastTs segB,
      ?_, by decide, ?_⟩
    · have hre : (((('$', t0) :: segN) ++ [('\r', tCR1), ('\n', tLF1)] ++ segB ++
            [('\r', tCR2), ('\n', tLF2)]) : ByteStream) ++ rest =
          (('$', t0) :: segN) ++
            ('\r', tCR1) :: ('\n', tLF1) :: (segB ++ ('\r', tCR2) :: ('\n', tLF2) :: rest) := by
        simp
      have hno : ∀ p ∈ ('$', t0) :: segN, p.1 ≠ '\n' :=
        no_lf_of_map _ ('$' :: numStr) (by simp [hm1])
          (by
            intro hmem
            rcases List.mem_cons.mp hmem with heq | hmem2
            · exact absurd heq (by decide)
            · exact atoiOpt_no_lf numStr _ hnum hmem2)
      rw [hre, readLine_crlf _ hno (by simp) tCR1 tLF1 _]
      simp [hm1]
    · exact redisReadString0_bulk numStr body hnum hlen tLF1 segB hm2 tCR2 tLF2 rest

theorem redisReadString_encodes (sc : RScalar) (enc : ByteStream)
    (h : EncodesScalar sc enc) (rest : ByteStream) :
    ∃ ts, redisReadString (enc ++ rest) = .ok (sc.value, ts, rest) := by
  obtain ⟨c, lrest, ts, tp1, ts2, h1, _, h3⟩ := encodes_line sc enc h rest
  exact ⟨ts2, by rw [redisReadString_eq_of_line _ _ _ _ h1, h3]⟩

theorem readScalars_encodes (scs : List RScalar) (encs : ByteStream)
    (h : EncodesScalars scs encs) :
    ∀ (ts0 : Int) (rest : ByteStream),
      ∃ ts, readScalars scs.length ts0 (encs ++ rest) =
        .ok (scs.map RScalar.value, ts, rest) := by
  induction h with
  | nil => intro ts0 rest; exact ⟨ts0, rfl⟩
  | cons sc scs enc encs hsc _ ih =>
    intro ts0 rest
    obtain ⟨ts1, h1⟩ := redisReadString_encodes sc enc hsc (encs ++ rest)
    obtain ⟨ts2, h2⟩ := ih ts1 rest
    refine ⟨ts2, ?_⟩
    have hre : (enc ++ encs) ++ rest = enc ++ (encs ++ rest) := List.append_assoc ..
    rw [hre]
    simp only [List.length_cons, readScalars, h1, h2, List.map_cons]

/-! Claim C1 — `DecodeUnit` / `redisReadArrayOrString`. -/

/-- C1 counterexample: the empty bulk string `"$0\r\n\r\n"` is a valid
scalar encoding under the grammar (`'$' n CRLF <n raw bytes> CRLF`
with n = 0, distinct from the `"$-1"` null sentinel), yet
`redisReadArrayOrString` does not return its decoded (empty) value:
both inside a one-element array and standing alone, the discarded
`Atoi` result 0 is handed to `ReadLineN`, which panics on n <= 0 — the
decoder aborts instead of decoding. -/
theorem c1_counterexample :
    redisReadArrayOrString
        [('*', 1), ('1', 2), ('\r', 3), ('\n', 4),
         ('$', 5), ('0', 6), ('\r', 7), ('\n', 8), ('\r', 9), ('\n', 10)] =
      .error .panicked ∧
    redisReadArrayOrString
        [('$', 5), ('0', 6), ('\r', 7), ('\n', 8), ('\r', 9), ('\n', 10)] =
      .error .panicked :=
  ⟨rfl, rfl⟩

/-- C1 (amended): for every input stream beginning with an array header
`'*' n` (a line whose count field parses to the number of following
scalars) followed by that many valid scalar encodings in which every
bulk string declares a length of at least 1, `redisReadArrayOrString`
returns exactly the n decoded scalar values in order; for an input
beginning with such a valid scalar encoding (whose leading character
is never `'*'`) it returns the one-element sequence of that scalar's
value; it fails with the protocol-violation fatal whenever the array
header declares fewer than one element; and a bulk-string header whose
declared length parses to 0 — the grammar's empty bulk string — is not
decoded at all: the scalar decoder aborts with `ReadLineN`'s n <= 0
panic (fourth conjunct; the counterexample shows it at the concrete
input). -/
theorem c1_decode_unit :
    (∀ (scs : List RScalar) (numStr : Str) (segN encs rest : ByteStream)
        (t0 tCR tLF : Int),
        atoiOpt numStr = some (scs.length : Int) → 1 ≤ scs.length →
        segN.map Prod.fst = numStr → EncodesScalars scs encs →
        ∃ ts, redisReadArrayOrString
            ((('*', t0) :: segN) ++ ('\r', tCR) :: ('\n', tLF) :: (encs ++ rest)) =
          .ok (scs.map RScalar.value, ts, rest)) ∧
    (∀ (sc : RScalar) (enc rest : ByteStream), EncodesScalar sc enc →
        ∃ ts, redisReadArrayOrString (enc ++ rest) = .ok ([sc.value], ts, rest)) ∧
    (∀ (numStr : Str) (segN rest : ByteStream) (t0 tCR tLF : Int),
        atoi numStr < 1 → '\n' ∉ numStr → segN.map Prod.fst = numStr →
        redisReadArrayOrString ((('*', t0) :: segN) ++ ('\r', tCR) :: ('\n', tLF) :: rest) =
          .error .protocolViolation) ∧
    (∀ (g : Str) (t : Int) (s : ByteStream), atoiOpt g = some 0 →
        redisReadString0 ('$' :: g) t s = .error .panicked) := by
  refine ⟨?_, ?_, ?_, ?_⟩
  · intro scs numStr segN encs rest t0 tCR tLF hnum hlen hm hencs
    have hno : ∀ p ∈ ('*', t0) :: segN, p.1 ≠ '\n' :=
      no_lf_of_map _ ('*' :: numStr) (by simp [hm])
        (by
          intro hmem
          rcases List.mem_cons.mp hmem with heq | hmem2
          · exact absurd heq (by decide)
          · exact atoiOpt_no_lf numStr _ hnum hmem2)
    have hline := readLine_crlf (('*', t0) :: segN) hno (by simp) tCR tLF (encs ++ rest)
    simp only [List.map_cons, hm] at hline
    rw [redisReadArrayOrString_star _ _ _ _ hline]
    have hatoi : atoi numStr = (scs.length : Int) := atoi_of_some _ _ hnum
    rw [hatoi, if_neg (by omega), Int.toNat_natCast]
    exact readScalars_encodes scs encs hencs tLF rest
  · intro sc enc rest h
    obtain ⟨c, lrest, ts, tp1, ts2, h1, hc, h3⟩ := encodes_line sc enc h rest
    exact ⟨ts2, by rw [redisReadArrayOrString_nonstar _ _ _ _ _ hc h1, h3]⟩
  · intro numStr segN rest t0 tCR tLF hlt hlf hm
    have hno : ∀ p ∈ ('*', t0) :: segN, p.1 ≠ '\n' :=
      no_lf_of_map _ ('*' :: numStr) (by simp [hm])
        (by
          intro hmem
          rcases List.mem_cons.mp hmem with heq | hmem2
          · exact absurd heq (by decide)
          · exact hlf hmem2)
    have hline := readLine_crlf (('*', t0) :: segN) hno (by simp) tCR tLF rest
    simp only [List.map_cons, hm] at hline
    rw [redisReadArrayOrString_star _ _ _ _ hline, if_pos hlt]
  · intro g t s h0
    have hne : ('$' :: g) ≠ "$-1".data := by
      intro h
      injection h with _ h2
      have hval : atoiOpt "-1".data = some (-1) := by decide
      rw [h2, hval] at h0
      exact absurd (Option.some.inj h0) (by decide)
    have hatoi : atoi g = 0 := by rw [atoi, h0]; rfl
    simp [redisReadString0, hne, hatoi, readLineN]

/-- Witness for C1 (amended) at concrete inputs: the unit
`"*1\r\n+OK\r\n"` decodes to the one-scalar sequence ["OK"]; the bare
scalar `"+PONG\r\n"` decodes to ["PONG"]; the empty-array header
`"*0\r\n"` is a protocol violation; the zero-length bulk header `"$0"`
aborts with the panic. -/
theorem c1_decode_unit_witness :
    (∃ ts, redisReadArrayOrString
        [('*', 1), ('1', 2), ('\r', 3), ('\n', 4),
         ('+', 5), ('O', 6), ('K', 7), ('\r', 8), ('\n', 9)] =
      .ok ([['O', 'K']], ts, [])) ∧
    (∃ ts, redisReadArrayOrString
        [('+', 1), ('P', 2), ('O', 3), ('N', 4), ('G', 5), ('\r', 6), ('\n', 7)] =
      .ok ([['P', 'O', 'N', 'G']], ts, [])) ∧
    redisReadArrayOrString [('*', 1), ('0', 2), ('\r', 3), ('\n', 4)] =
      .error .protocolViolation ∧
    redisReadString0 "$0".data 7 [] = .error .panicked := by
  refine ⟨?_, ?_, ?_, ?_⟩
  · have hsc : EncodesScalar (.simple "OK".data)
        ((('+', 5) :: [('O', 6), ('K', 7)]) ++ [('\r', 8), ('\n', 9)]) :=
      EncodesScalar.simple "OK".data [('O', 6), ('K', 7)] 5 8 9 (by decide) rfl
    have hl : EncodesScalars [.simple "OK".data]
        (((('+', 5) :: [('O', 6), ('K', 7)]) ++ [('\r', 8), ('\n', 9)]) ++ []) :=
      EncodesScalars.cons _ [] _ [] hsc EncodesScalars.nil
    exact c1_decode_unit.1 [.simple "OK".data] "1".data [('1', 2)] _ [] 1 3 4
      (by decide) (by decide) rfl hl
  · have hsc : EncodesScalar (.simple "PONG".data)
        ((('+', 1) :: [('P', 2), ('O', 3), ('N', 4), ('G', 5)]) ++ [('\r', 6), ('\n', 7)]) :=
      EncodesScalar.simple "PONG".data [('P', 2), ('O', 3), ('N', 4), ('G', 5)] 1 6 7
        (by decide) rfl
    exact c1_decode_unit.2.1 (.simple "PONG".data) _ [] hsc
  · exact c1_decode_unit.2.2.1 "0".data [('0', 2)] [] 1 3 4 (by decide) (by decide) rfl
  · exact c1_decode_unit.2.2.2 "0".data 7 [] (by decide)

/-! Claim C5 — the `"$-1"` null sentinel. -/

/-- C5: a line that is exactly `"$-1"` decodes to the sentinel
"not-found" while consuming nothing further from the stream, for every
suffix stream — so the null-sentinel check takes precedence over the
generic `'$'` bulk-string branch, whose length parse on `"-1"` would
instead hand `ReadLineN` the non-positive count -1 and abort (last
conjunct). -/
theorem c5_null_sentinel :
    (∀ (t : Int) (s : ByteStream),
        redisReadString0 "$-1".data t s = .ok ("not-found".data, t, s)) ∧
    (∀ (t0 t1 t2 t3 t4 : Int) (rest : ByteStream),
        redisReadString ([('$', t0), ('-', t1), ('1', t2), ('\r', t3), ('\n', t4)] ++ rest) =
          .ok ("not-found".data, t4, rest)) ∧
    (∀ (s : ByteStream), readLineN (atoi "-1".data) s = .error .panicked) := by
  refine ⟨redisReadString0_null, ?_, fun s => rfl⟩
  intro t0 t1 t2 t3 t4 rest
  have hno : ∀ p ∈ [('$', t0), ('-', t1), ('1', t2)], p.1 ≠ '\n' :=
    no_lf_of_map _ ['$', '-', '1'] rfl (by decide)
  have hre : ([('$', t0), ('-', t1), ('1', t2), ('\r', t3), ('\n', t4)] : ByteStream) ++ rest =
      [('$', t0), ('-', t1), ('1', t2)] ++ ('\r', t3) :: ('\n', t4) :: rest := by simp
  have hline := readLine_crlf [('$', t0), ('-', t1), ('1', t2)] hno (by simp) t3 t4 rest
  rw [hre, redisReadString_eq_of_line _ _ _ _ hline]
  exact redisReadString0_null t4 rest

/-! Claim C10 — non-numeric length fields fall back to zero. -/

/-- C10: when a header's length field is not a valid decimal number,
`strconv.Atoi`'s error is discarded and the length is zero: a `'$'`
header then calls `ReadLineN` with n = 0, which aborts with its
n <= 0 panic, and a `'*'` header then fails the fewer-than-one-element
check with the protocol-violation fatal; no distinct parse-error kind
is ever produced. -/
theorem c10_bad_length :
    (∀ (g : Str) (t : Int) (s : ByteStream), atoiOpt g = none →
        redisReadString0 ('$' :: g) t s = .error .panicked) ∧
    (∀ (g : Str) (segN rest : ByteStream) (t0 tCR tLF : Int),
        atoiOpt g = none → '\n' ∉ g → segN.map Prod.fst = g →
        redisReadArrayOrString ((('*', t0) :: segN) ++ ('\r', tCR) :: ('\n', tLF) :: rest) =
          .error .protocolViolation) := by
  constructor
  · intro g t s hnone
    have hne : ('$' :: g) ≠ "$-1".data := by
      intro h
      injection h with _ h2
      have hval : atoiOpt "-1".data = some (-1) := by decide
      rw [h2, hval] at hnone
      cases hnone
    have hatoi : atoi g = 0 := by rw [atoi, hnone]; rfl
    simp [redisReadString0, hne, hatoi, readLineN]
  · intro g segN rest t0 tCR tLF hnone hlf hm
    have hatoi : atoi g = 0 := by rw [atoi, hnone]; rfl
    have hno : ∀ p ∈ ('*', t0) :: segN, p.1 ≠ '\n' :=
      no_lf_of_map _ ('*' :: g) (by simp [hm])
        (by
          intro hmem
          rcases List.mem_cons.mp hmem with heq | hmem2
          · exact absurd heq (by decide)
          · exact hlf hmem2)
    have hline := readLine_crlf (('*', t0) :: segN) hno (by simp) tCR tLF rest
    simp only [List.map_cons, hm] at hline
    rw [redisReadArrayOrString_star _ _ _ _ hline, if_pos (by rw [hatoi]; decide)]

/-- Witness for C10 at concrete inputs: `"$abc"` aborts with the
`ReadLineN` n <= 0 panic; `"*x\r\n"` is the fewer-than-one-element
protocol violation. -/
theorem c10_bad_length_witness :
    redisReadString0 "$abc".data 3 [] = .error .panicked ∧
    redisReadArrayOrString [('*', 1), ('x', 2), ('\r', 3), ('\n', 4)] =
      .error .protocolViolation := by
  constructor
  · exact c10_bad_length.1 "abc".data 3 [] (by decide)
  · exact c10_bad_length.2 "x".data [('x', 2)] [] 1 3 4 (by decide) (by decide) rfl

/-! Claim C4 — `Reassembled` and the channel queue. -/

/-- C4 counterexample: the channel created by `NewReaderStream` holds at
most 1000 pending batches, and `Reassembled`'s `select`-with-`default`
panics ("blocked on sending to channel") when it is full — so with
1000 undrained batches queued, accepting one more segment aborts the
producer: the queue is not unbounded and overflow is not structurally
impossible. -/
theorem c4_counterexample :
    reassembledStep (List.replicate 1000 ([] : List Reassembly)) [] =
      .error .panicked := by
  unfold reassembledStep
  rw [if_neg (by rw [List.length_replicate]; decide)]

/-- C4 (amended): `Reassembled` appends the batch (with its timestamps)
to the channel queue and never blocks its producer, but the queue is
bounded at 1000 batches: while fewer than 1000 batches are pending the
send succeeds, and once 1000 are pending the producer is aborted by a
panic — overflow is handled by crashing, not structurally
impossible. -/
theorem c4_accept_amended :
    ∀ (queued : List (List Reassembly)) (batch : List Reassembly),
      (queued.length < chanCapacity →
        reassembledStep queued batch = .ok (queued ++ [batch])) ∧
      (chanCapacity ≤ queued.length →
        reassembledStep queued batch = .error .panicked) :=
  fun queued batch =>
    ⟨fun h => by rw [reassembledStep, if_pos h],
     fun h => by rw [reassembledStep, if_neg (by omega)]⟩

/-- Witness for C4 (amended): an empty queue accepts a batch; a full
queue of 1000 batches panics. -/
theorem c4_accept_amended_witness :
    reassembledStep [] [⟨"x".data, 5⟩] = .ok [[⟨"x".data, 5⟩]] ∧
    reassembledStep (List.replicate 1000 [⟨"y".data, 6⟩]) [] = .error .panicked := by
  constructor
  · exact (c4_accept_amended [] [⟨"x".data, 5⟩]).1 (by decide)
  · exact (c4_accept_amended _ []).2 (by rw [List.length_replicate]; decide)

/-! Claim C6 — FIFO pairing under interleaving. -/

theorem runFlow_aux (tr : List FlowStep) :
    ∀ (pend done : List redisRequest),
      (∀ n, n ≤ tr.length →
        respCount (tr.take n) ≤ pend.length + (reqsOf (tr.take n)).length) →
      tr.foldl stepQ (pend, done, false) =
        ((pend ++ reqsOf tr).drop (respCount tr),
         done ++ (pend ++ reqsOf tr).take (respCount tr), false) := by
  induction tr with
  | nil =>
    intro pend done _
    simp [reqsOf, respCount]
  | cons s tr ih =>
    intro pend done h
    cases s with
    | req r =>
      have h' : ∀ n, n ≤ tr.length →
          respCount (tr.take n) ≤ (pend ++ [r]).length + (reqsOf (tr.take n)).length := by
        intro n hn
        have := h (n + 1) (by simpa using Nat.succ_le_succ hn)
        simp [respCount, reqsOf, List.countP_cons, List.filterMap_cons] at this ⊢
        omega
      simp only [List.foldl_cons, stepQ]
      rw [ih (pend ++ [r]) done h']
      simp [reqsOf, respCount, List.filterMap_cons, List.countP_cons, List.append_assoc]
    | resp =>
      have hp : 1 ≤ pend.length := by
        have := h 1 (by simp)
        simpa [respCount, reqsOf] using this
      cases pend with
      | nil => simp at hp
      | cons r pend' =>
        have h' : ∀ n, n ≤ tr.length →
            respCount (tr.take n) ≤ pend'.length + (reqsOf (tr.take n)).length := by
          intro n hn
          have := h (n + 1) (by simpa using Nat.succ_le_succ hn)
          simp [respCount, reqsOf, List.countP_cons, List.filterMap_cons] at this ⊢
          omega
        simp only [List.foldl_cons, stepQ]
        rw [ih pend' (done ++ [r]) h']
        simp [reqsOf, respCount, List.filterMap_cons, List.countP_cons,
          List.take_succ_cons, List.drop_succ_cons]

/-- C6: over every interleaving of the two direction handlers' atomic
queue accesses on one flow (requests appended at the tail in issue
order, responses popping the head), if every prefix of the
interleaving has at least as many requests issued as responses popped
(each request is issued before its reply), then no pop ever finds the
queue empty and the popped sequence is exactly the first
`respCount tr` issued requests in issue order — response i is paired
with request Ri regardless of scheduling jitter. -/
theorem c6_fifo_pairing (tr : List FlowStep)
    (h : ∀ n, n ≤ tr.length →
      respCount (tr.take n) ≤ (reqsOf (tr.take n)).length) :
    runFlow tr = ((reqsOf tr).drop (respCount tr),
      (reqsOf tr).take (respCount tr), false) := by
  have := runFlow_aux tr [] [] (by intro n hn; simpa using h n hn)
  simpa [runFlow] using this

/-- Witness for C6 at a concrete interleaving: two requests then two
responses pair FIFO. -/
theorem c6_fifo_pairing_witness :
    runFlow [.req ⟨"GET".data, "k1".data, 10⟩, .resp,
             .req ⟨"SET".data, "k2".data, 20⟩, .resp] =
      ([], [⟨"GET".data, "k1".data, 10⟩, ⟨"SET".data, "k2".data, 20⟩], false) := by
  exact c6_fifo_pairing
    [.req ⟨"GET".data, "k1".data, 10⟩, .resp,
     .req ⟨"SET".data, "k2".data, 20⟩, .resp]
    (by decide)

/-! Claim C7 — the retry loop's empty-entry crash. -/

/-- C7 evaluated at the failing input: a single-scalar response whose
flow entry in `pendingRequests` exists but is empty (every earlier
request already popped) is answered by indexing `reqList[0]` out of
range — a runtime panic on the very first attempt — instead of
retrying toward `UnmatchedResponse`; the absent-entry path does retry
and, with the 50-attempt budget exhausted, raises the
unmatched-response fatal. -/
theorem c7_empty_entry_panics :
    responseStep ["OK".data] (fun _ => some []) = .error .panicked ∧
    popRetry 50 (fun _ => some []) = .error .panicked ∧
    popRetry 50 (fun _ => none) = .error .unmatchedResponse :=
  ⟨rfl, rfl, rfl⟩

/-! Claim C8 — response-side unit classification. -/

/-- C8: a decoded response unit whose leading scalar is the reserved
"pmessage" marker is discarded without the pending queue being popped
or even inspected (the outcome is independent of the observed queue);
any other unit with more than one scalar is the `log.Fatalf` protocol
violation; a single-scalar unit proceeds to the correlating pop. -/
theorem c8_response_classification :
    (∀ (rest : List Str) (obs obs' : Nat → Option (List redisRequest)),
        responseStep ("pmessage".data :: rest) obs = .ok none ∧
        responseStep ("pmessage".data :: rest) obs =
          responseStep ("pmessage".data :: rest) obs') ∧
    (∀ (l0 l1 : Str) (rest : List Str) (obs : Nat → Option (List redisRequest)),
        l0 ≠ "pmessage".data →
        responseStep (l0 :: l1 :: rest) obs = .error .protocolViolation) ∧
    (∀ (l0 : Str) (obs : Nat → Option (List redisRequest)),
        l0 ≠ "pmessage".data →
        responseStep [l0] obs = (popRetry 50 obs).map some) := by
  refine ⟨fun rest obs obs' => ⟨rfl, rfl⟩, ?_, ?_⟩
  · intro l0 l1 rest obs h
    simp [responseStep, h]
  · intro l0 obs h
    simp [responseStep, h]

/-- Witness for C8 at concrete inputs: a pmessage notification is
dropped, a two-scalar reply is a protocol violation, and a
single-scalar reply is matched with the pending request. -/
theorem c8_response_classification_witness :
    responseStep ["pmessage".data, "*".data] (fun _ => none) = .ok none ∧
    responseStep ["OK".data, "extra".data] (fun _ => none) =
      .error .protocolViolation ∧
    responseStep ["PONG".data] (fun _ => some [⟨"PING".data, [], 3⟩]) =
      .ok (some ⟨"PING".data, [], 3⟩) := by
  refine ⟨(c8_response_classification.1 ["*".data] (fun _ => none) (fun _ => none)).1,
    c8_response_classification.2.1 "OK".data "extra".data [] (fun _ => none) (by decide),
    ?_⟩
  rw [c8_response_classification.2.2 "PONG".data _ (by decide)]
  rfl

/-! Claim C9 — latency of a matched pair. -/

/-- C9: the emitted record's latency is exactly the response timestamp
minus the request timestamp, computed in unix microseconds (the code
subtracts `UnixMicro()` values, i.e. microsecond resolution); given
monotonic per-flow timestamps (the matched request's timestamp not
after the response's), the latency is non-negative. -/
theorem c9_latency :
    ∀ (flowKey : Str) (req : redisRequest) (respValue : Str) (respTime : Int),
      (emitRecord flowKey req respValue respTime).latencyMicros =
        respTime - req.requestTime ∧
      (req.requestTime ≤ respTime →
        0 ≤ (emitRecord flowKey req respValue respTime).latencyMicros) := by
  intro fk req v t
  refine ⟨rfl, fun h => ?_⟩
  simp only [emitRecord]
  omega

/-- Witness for C9 at a concrete matched pair: request at 100µs,
response at 350µs, latency 250µs and non-negative. -/
theorem c9_latency_witness :
    (emitRecord [] ⟨"GET".data, "k".data, 100⟩ "bar".data 350).latencyMicros = 250 ∧
    0 ≤ (emitRecord [] ⟨"GET".data, "k".data, 100⟩ "bar".data 350).latencyMicros := by
  have h := c9_latency [] ⟨"GET".data, "k".data, 100⟩ "bar".data 350
  exact ⟨by rw [h.1]; decide, h.2 (by decide)⟩
